import Mathlib

/-!
Verification development for the content-synthesis orchestration and
response-reconciliation engine of the radiology teaching application
(React/TypeScript sources: `App.tsx`, `services/geminiService.ts`,
`components/ChatSection.tsx`, `types.ts`).

Texts and answer bodies are modelled as `List Char`; the helper `str`
converts a Lean string literal into that representation.  Platform
primitives used by the source (JavaScript regular expressions, `JSON.parse`,
`new URL`, `Set`, property access) are modelled explicitly next to the
function that uses them, each with a comment stating the modelled semantics.
-/

namespace RGR

/-- Helper turning a string literal into the `List Char` representation used
throughout this development. -/
def str (s : String) : List Char := s.data

/-- Backtick character, written via its code point. -/
def tickChar : Char := Char.ofNat 96

/-- Three consecutive backticks: the fence delimiter of a Markdown code
block, as matched by the regex in `getTeachingSections`. -/
def ticks3 : List Char := [tickChar, tickChar, tickChar]

/-- Whitespace test modelling the JavaScript regex class `\s` (restricted to
the ASCII whitespace characters; the Unicode space characters JavaScript
additionally accepts play no role in the claims). -/
def isJsWs (c : Char) : Bool :=
  decide (c = ' ') || decide (c = '\t') || decide (c = '\n') ||
  decide (c = '\r') || decide (c = Char.ofNat 11) || decide (c = Char.ofNat 12)

/-- Boolean list-prefix test (structural transliteration, kept local so that
all lemmas about it are proved in this file). -/
def pfx : List Char → List Char → Bool
  | [], _ => true
  | _ :: _, [] => false
  | a :: as, b :: bs => decide (a = b) && pfx as bs

/-- Boolean substring test: `hasInfix hay needle` is true when `needle`
occurs contiguously inside `hay`. -/
def hasInfix (hay needle : List Char) : Bool :=
  match hay with
  | [] => needle.isEmpty
  | _ :: t => pfx needle hay || hasInfix t needle

theorem pfx_iff (a : List Char) : ∀ b, pfx a b = true ↔ ∃ t, b = a ++ t := by
  induction a with
  | nil => intro b; simp [pfx]
  | cons x xs ih =>
    intro b
    cases b with
    | nil => simp [pfx]
    | cons y ys =>
      simp only [pfx, Bool.and_eq_true, decide_eq_true_eq, ih ys]
      constructor
      · rintro ⟨rfl, t, rfl⟩; exact ⟨t, rfl⟩
      · rintro ⟨t, h⟩
        injection h with h1 h2
        exact ⟨h1.symm, t, h2⟩

theorem pfx_self_append (a t : List Char) : pfx a (a ++ t) = true :=
  (pfx_iff a (a ++ t)).2 ⟨t, rfl⟩

theorem hasInfix_iff (hay needle : List Char) :
    hasInfix hay needle = true ↔ ∃ u v, hay = u ++ needle ++ v := by
  induction hay with
  | nil =>
    simp only [hasInfix, List.isEmpty_iff]
    constructor
    · rintro rfl; exact ⟨[], [], rfl⟩
    · rintro ⟨u, v, h⟩
      rcases List.append_eq_nil.1 h.symm with ⟨h1, h2⟩
      exact (List.append_eq_nil.1 h1).2
  | cons c t ih =>
    simp only [hasInfix, Bool.or_eq_true, pfx_iff, ih]
    constructor
    · rintro (⟨u, h⟩ | ⟨u, v, rfl⟩)
      · exact ⟨[], u, by simpa using h⟩
      · exact ⟨c :: u, v, by simp⟩
    · rintro ⟨u, v, h⟩
      cases u with
      | nil => exact Or.inl ⟨v, by simpa using h⟩
      | cons x xs =>
        rw [List.cons_append, List.cons_append] at h
        injection h with h1 h2
        exact Or.inr ⟨xs, v, h2⟩

theorem hasInfix_append_self (a b : List Char) : hasInfix (a ++ b) b = true :=
  (hasInfix_iff (a ++ b) b).2 ⟨a, [], by simp⟩

theorem hasInfix_trans {a b c : List Char} (h1 : hasInfix a b = true)
    (h2 : hasInfix b c = true) : hasInfix a c = true := by
  rcases (hasInfix_iff a b).1 h1 with ⟨u, v, rfl⟩
  rcases (hasInfix_iff b c).1 h2 with ⟨p, q, rfl⟩
  exact (hasInfix_iff _ c).2 ⟨u ++ p, q ++ v, by simp⟩

/-- Contrapositive form used to refute containment of a long instruction via
one of its short substrings. -/
theorem not_hasInfix_of_sub {hay long tok : List Char}
    (hmono : hasInfix long tok = true) (hno : hasInfix hay tok = false) :
    hasInfix hay long = false := by
  by_contra h
  have h' : hasInfix hay long = true := by
    cases hfl : hasInfix hay long with
    | false => exact absurd hfl h
    | true => rfl
  have := hasInfix_trans h' hmono
  rw [hno] at this
  exact Bool.false_ne_true this

/-! ## JSON value model

`JSON.parse` output is modelled as a tree.  Objects produced by `JSON.parse`
bind each key at most once (duplicate keys collapse to the last), so field
lists are read with a plain first-match lookup. -/

inductive JsonValue where
  | null
  | bool (b : Bool)
  | num (n : Int)
  | str (s : String)
  | arr (elems : List JsonValue)
  | obj (fields : List (String × JsonValue))

/-- JavaScript property access `value.key` for a parsed JSON value: a lookup
on objects, `undefined` (here `none`) on every other non-null value.  Access
on `null` throws a `TypeError`; callers model that case separately. -/
def jsProp (j : JsonValue) (key : String) : Option JsonValue :=
  match j with
  | .obj fields => fields.lookup key
  | _ => none

/-- Classification outcome of one parsed teaching reply. -/
inductive LessonOutcome where
  | sections (elems : List JsonValue)
  | missingPdfs (urls : List JsonValue)

/-- Errors raised while interpreting a teaching reply. -/
inductive LessonError where
  | unparsableResponse
  | unexpectedShape
  | genericFailure
deriving DecidableEq

/-- Classification of a parsed teaching reply, transliterating
`geminiService.getTeachingSections` after `JSON.parse`:
`parsedResponse.missing_pdfs && Array.isArray(...) && length > 0` raises the
escalation (`MissingPdfError`), a plain array is returned as the sections
without further validation, anything else throws the unexpected-format
error.  Property access on a parsed `null` throws a `TypeError`, landing in
the generic catch-all failure. -/
def classifyParsed (j : JsonValue) : Except LessonError LessonOutcome :=
  match j with
  | .null => .error .genericFailure
  | j =>
    match jsProp j "missing_pdfs" with
    | some (.arr l) =>
      if l.length > 0 then .ok (.missingPdfs l)
      else match j with
        | .arr xs => .ok (.sections xs)
        | _ => .error .unexpectedShape
    | _ =>
      match j with
      | .arr xs => .ok (.sections xs)
      | _ => .error .unexpectedShape

/-! ## Free-text JSON extraction (web-search mode)

Models the two regex probes of `getTeachingSections` (geminiService):
first the fenced-code-block regex applied with `responseText.match`, then —
when no fenced match or an empty capture — the bracket fallback regex on the
original text. -/

/-- Closing test of the lazy capture: the remaining text matches
`\s*`` ``` `` ` at its start.  Since a backtick is not whitespace, the greedy
`\s*` can only place the closing fence immediately after the maximal
whitespace run. -/
def closeHere (r : List Char) : Bool :=
  pfx ticks3 (r.dropWhile isJsWs)

/-- Lazy capture body of the fenced regex: the shortest prefix after which
`\s*`` ``` `` ` closes the block; `none` when no closing fence exists. -/
def fencedBody : List Char → Option (List Char)
  | [] => if closeHere [] then some [] else none
  | c :: r => if closeHere (c :: r) then some [] else (fencedBody r).map (c :: ·)

/-- Continuation of a fenced match right after an opening `` ``` ``:
the optional `json` language tag is consumed when present (the regex prefers
the non-empty alternative of `(json)?`, and when the preferred branch has no
closing fence the empty alternative cannot have one either, backticks not
occurring in `json` or in whitespace), then the greedy `\s*`, then the lazy
capture. -/
def openFence (s : List Char) : Option (List Char) :=
  let r := if pfx (str "json") s then s.drop 4 else s
  fencedBody (r.dropWhile isJsWs)

/-- Leftmost match of the fenced-block regex
``/```(json)?\s*([\s\S]*?)\s*```/``, returning the second capture group. -/
def extractFenced : List Char → Option (List Char)
  | [] => none
  | c :: t =>
    if pfx ticks3 (c :: t) then
      match openFence ((c :: t).drop 3) with
      | some g => some g
      | none => extractFenced t
    else extractFenced t

/-- Prefix of `l` up to and including the last occurrence of `ch` (the
greedy `[\s\S]*` of the bracket regex reaches for the last closing
bracket). -/
def takeToLast (ch : Char) (l : List Char) : List Char :=
  (l.reverse.dropWhile (fun c => !(decide (c = ch)))).reverse

/-- Leftmost match of the bracket fallback regex
`/\{[\s\S]*\}|\[[\s\S]*\]/`: the earliest position opening a `{` with a
later `}` (preferred alternative) or a `[` with a later `]`, extending to
the last such closer. -/
def bracketSpan : List Char → Option (List Char)
  | [] => none
  | c :: rest =>
    if decide (c = '\x7b') && rest.any (fun d => decide (d = '\x7d')) then
      some (c :: takeToLast '\x7d' rest)
    else if decide (c = '[') && rest.any (fun d => decide (d = ']')) then
      some (c :: takeToLast ']' rest)
    else bracketSpan rest

/-- Bracket fallback of the extraction pipeline, applied to the original
reply text. -/
def bracketFallback (s : List Char) : Except LessonError (List Char) :=
  match bracketSpan s with
  | some t => .ok t
  | none => .error .unparsableResponse

/-- Free-text JSON extraction of `getTeachingSections` (web-search mode):
a fenced-block match with a non-empty capture wins (`jsonMatch &&
jsonMatch[2]`); otherwise the bracket fallback runs on the original text;
when that fails too the call throws before `JSON.parse` ever runs. -/
def extractJsonText (s : List Char) : Except LessonError (List Char) :=
  match extractFenced s with
  | some g => if g.isEmpty then bracketFallback s else .ok g
  | none => bracketFallback s

/-! ## Provenance channels and source merging -/

/-- A grounding source: `{ uri, title }` (types.ts). -/
structure GroundingSource where
  uri : String
  title : String
deriving DecidableEq

/-- The `web` payload of a grounding chunk.  A missing or empty `uri` or
`title` field is modelled as the empty string (JavaScript truthiness of a
string is non-emptiness, so `undefined` and `""` behave alike here). -/
structure WebInfo where
  uri : String
  title : String
deriving DecidableEq

/-- One entry of `groundingMetadata.groundingChunks`; `web` is `none` when
the chunk carries no web payload. -/
structure GroundingChunk where
  web : Option WebInfo
deriving DecidableEq

/-- One entry of the `urlContextMetadata` channel.  `retrievedUrl` is the
empty string when the field is missing (falsy). -/
structure UrlMeta where
  urlRetrievalStatus : String
  retrievedUrl : String
deriving DecidableEq

/-- Channel 1 (both lesson and chat paths):
`groundingChunks.map(c => c.web).filter(web => !!web && !!web.uri && !!web.title)`.
Chunks without a web payload or with an empty uri or title are dropped
silently; no fallback title is synthesized on this channel. -/
def chunkSources (chunks : List GroundingChunk) : List GroundingSource :=
  chunks.filterMap (fun c =>
    match c.web with
    | some w => if w.uri ≠ "" ∧ w.title ≠ "" then some ⟨w.uri, w.title⟩ else none
    | none => none)

/-- Channel 2 (lesson path only): retrieval records with a success status
and a truthy retrieved URL, each becoming a source with the URL as both uri
and title. -/
def successfulUrlSources (metas : List UrlMeta) : List GroundingSource :=
  (metas.filter (fun m =>
      decide (m.urlRetrievalStatus = "URL_RETRIEVAL_STATUS_SUCCESS") &&
      decide (m.retrievedUrl ≠ ""))).map
    (fun m => ⟨m.retrievedUrl, m.retrievedUrl⟩)

/-- The `forEach` push of `getTeachingSections`: append a channel-2 source
only when no already-present source carries the same uri. -/
def pushIfNewUri (acc : List GroundingSource) (s : GroundingSource) :
    List GroundingSource :=
  if acc.any (fun t => decide (t.uri = s.uri)) then acc else acc ++ [s]

/-- The merged source list of the lesson path: channel-1 sources first, then
each channel-2 success record pushed unless its uri is already present.
Records with a non-success status only feed a console warning and never
become sources. -/
def lessonSources (chunks : List GroundingChunk) (metas : List UrlMeta) :
    List GroundingSource :=
  (successfulUrlSources metas).foldl pushIfNewUri (chunkSources chunks)

/-! ## Chat path: related-link extraction and failure handling
(`getFollowUpResponse` in geminiService) -/

/-- JavaScript word character (`\w`), used for the `\b` boundary of the URL
regex. -/
def isWordChar (c : Char) : Bool := c.isAlpha || c.isDigit || decide (c = '_')

/-- Case-insensitive prefix test (the URL regex carries the `i` flag). -/
def lowerPfx (pat s : List Char) : Bool :=
  pfx pat ((s.take pat.length).map Char.toLower)

/-- Scheme length when `s` starts with `http://` or `https://`
case-insensitively (`https` is preferred by the regex `https?`). -/
def urlPrefixLen (s : List Char) : Option Nat :=
  if lowerPfx (str "https://") s then some 8
  else if lowerPfx (str "http://") s then some 7
  else none

/-- Fuel-indexed scanner for `/\bhttps?:\/\/\S+/gi`: at a position preceded
by a non-word character (or the start), a scheme prefix followed by at least
one non-whitespace character matches, the token extending through the
maximal non-whitespace run; scanning resumes after the token.  Every step
consumes at least one character, so fuel equal to the text length never runs
out; the fuel only makes the recursion structural. -/
def extractUrlsGo : Nat → Bool → List Char → List (List Char)
  | 0, _, _ => []
  | _, _, [] => []
  | fuel + 1, prevIsWord, c :: rest =>
    match urlPrefixLen (c :: rest), prevIsWord with
    | some n, false =>
      if n < ((c :: rest).takeWhile (fun d => !(isJsWs d))).length then
        ((c :: rest).takeWhile (fun d => !(isJsWs d))) ::
          extractUrlsGo fuel
            (match ((c :: rest).takeWhile (fun d => !(isJsWs d))).getLast? with
             | some d => isWordChar d
             | none => prevIsWord)
            ((c :: rest).drop ((c :: rest).takeWhile (fun d => !(isJsWs d))).length)
      else extractUrlsGo fuel (isWordChar c) rest
    | _, _ => extractUrlsGo fuel (isWordChar c) rest

/-- All matches of the URL regex in the text, in order. -/
def extractUrls (prevIsWord : Bool) (s : List Char) : List (List Char) :=
  extractUrlsGo s.length prevIsWord s

/-- Trailing sentence punctuation strip: `url.replace(/[.,;!?)\]>]+$/, '')`. -/
def stripTrailingPunct (l : List Char) : List Char :=
  (l.reverse.dropWhile (fun c => (str ".,;!?)]>").any (fun p => decide (p = c)))).reverse

/-- Case-sensitive scheme length for already-normalized URLs. -/
def schemeLen (l : List Char) : Option Nat :=
  if pfx (str "https://") l then some 8
  else if pfx (str "http://") l then some 7
  else none

/-- Shape test for the `new URL` model below: a lowercase `http(s)` scheme,
a non-empty already-lowercase host, and an explicit path separator.  For
URLs of this shape the WHATWG constructor succeeds and its serialization
leaves everything up to the fragment unchanged. -/
def isNormalHttpUrl (l : List Char) : Bool :=
  match schemeLen l with
  | none => false
  | some n =>
    let rest := l.drop n
    let host := rest.takeWhile (fun c => !(decide (c = '/')))
    !host.isEmpty && rest.any (fun c => decide (c = '/')) &&
    host.all (fun c => c.isLower || c.isDigit || decide (c = '.') || decide (c = '-')) &&
    l.all (fun c => !(isJsWs c))

/-- Model of `new URL(stripped); urlObj.hash = ''; urlObj.href`, restricted
to URLs already in normalized serialized form (lowercase scheme and host,
explicit path): the result is the input with the fragment part (first `#`
onwards) removed.  Inputs outside this shape are treated as constructor
failures, which the source maps to `null` and filters out. -/
def jsUrlCleaned (t : List Char) : Option String :=
  let b := stripTrailingPunct t
  let base := b.takeWhile (fun c => !(decide (c = '#')))
  if isNormalHttpUrl base then some (String.mk base) else none

/-- Iteration producing the elements of `new Set(list)` in insertion order:
each element already emitted is skipped. -/
def jsSetDedupGo (seen : List String) : List String → List String
  | [] => []
  | a :: rest =>
    if seen.any (fun b => decide (b = a)) then jsSetDedupGo seen rest
    else a :: jsSetDedupGo (seen ++ [a]) rest

/-- Spread of `new Set(list)` into an array: first occurrences, in order. -/
def jsSetDedup (l : List String) : List String := jsSetDedupGo [] l

/-- The `relatedLinks` computation of `getFollowUpResponse`: URL tokens
scanned from the answer text, cleaned, deduplicated, with URLs already among
the grounding sources removed; each survivor becomes a source with the URL
as both uri and title. -/
def relatedLinksOf (text : List Char) (chunks : List GroundingChunk) :
    List GroundingSource :=
  let sources := chunkSources chunks
  let cleanedUrls := (extractUrls false text).filterMap jsUrlCleaned
  ((jsSetDedup cleanedUrls).filter
      (fun u => !(sources.any (fun s => decide (s.uri = u))))).map
    (fun u => ⟨u, u⟩)

/-- Raw backend reply consumed by the chat path. -/
structure ChatReply where
  text : List Char
  chunks : List GroundingChunk

/-- The `ChatResponse` record of geminiService. -/
structure ChatResponse where
  text : List Char
  sources : List GroundingSource
  relatedLinks : List GroundingSource

/-- Chat-path hard failure (`"Failed to get chat response. ..."`). -/
inductive ChatError where
  | chatBackendError
deriving DecidableEq

/-- The fixed apologetic message returned on a safety block. -/
def apologyChars : List Char :=
  str "I\x27m sorry, I cannot respond to that due to safety guidelines."

/-- The follow-up chat turn (`getFollowUpResponse`): on a successful backend
reply, the answer text is passed through unmodified together with the
channel-1 sources and the related links; a backend failure whose message
contains `SAFETY` degrades to the fixed apology with empty lists, and every
other failure is rethrown as the chat backend error. -/
def getFollowUpResponseM (backend : Except String ChatReply) :
    Except ChatError ChatResponse :=
  match backend with
  | .ok r => .ok ⟨r.text, chunkSources r.chunks, relatedLinksOf r.text r.chunks⟩
  | .error msg =>
    if hasInfix msg.data (str "SAFETY") then .ok ⟨apologyChars, [], []⟩
    else .error .chatBackendError

/-! ## Citation formatting (`formatCitations` in ChatSection.tsx) -/

/-- Value of `parseInt` on a non-empty all-digit string. -/
def natOfDigits (ds : List Char) : Nat :=
  ds.foldl (fun acc c => acc * 10 + (c.toNat - 48)) 0

/-- Decimal digits of a number, as printed back into a replaced marker. -/
def natChars (n : Nat) : List Char := (Nat.repr n).data

/-- Default used by the guarded list read; the guard `number > 0 && number
<= sources.length` makes it unreachable. -/
def defaultSource : GroundingSource := ⟨"", ""⟩

/-- The replacement emitted for an in-range marker `[k]`: a superscript
link to the k-th source, with the uri as title fallback. -/
def citeHtml (k : Nat) (s : GroundingSource) : List Char :=
  str "<sup class=\"font-medium text-sky-400\"><a href=\"" ++ s.uri.data ++
  str "\" target=\"_blank\" rel=\"noopener noreferrer\" title=\"" ++
  (if s.title ≠ "" then s.title.data else s.uri.data) ++
  str "\" class=\"no-underline hover:underline\">[" ++ natChars k ++
  str "]</a></sup>"

theorem length_dropWhile_le_ch (p : Char → Bool) (l : List Char) :
    (l.dropWhile p).length ≤ l.length := by
  induction l with
  | nil => simp [List.dropWhile]
  | cons c t ih =>
    rw [List.dropWhile_cons]
    split
    · exact Nat.le_trans ih (Nat.le_succ _)
    · exact Nat.le_refl _

/-- Scanner for `text.replace(/\[(\d+)\]/g, ...)`: at a `[` followed by one
or more digits and a `]`, the marker is replaced when `parseInt` of the
digits is between 1 and the source-list length and kept verbatim otherwise;
scanning resumes after the marker.  Everything else is copied through. -/
def fcLoop (ss : List GroundingSource) (l : List Char) : List Char :=
  match l with
  | [] => []
  | c :: rest =>
    if decide (c = '[') then
      match h : rest.dropWhile Char.isDigit with
      | ']' :: tail =>
        if (rest.takeWhile Char.isDigit).isEmpty then c :: fcLoop ss rest
        else
          if 1 ≤ natOfDigits (rest.takeWhile Char.isDigit) ∧
              natOfDigits (rest.takeWhile Char.isDigit) ≤ ss.length then
            citeHtml (natOfDigits (rest.takeWhile Char.isDigit))
                (ss.getD (natOfDigits (rest.takeWhile Char.isDigit) - 1) defaultSource)
              ++ fcLoop ss tail
          else c :: (rest.takeWhile Char.isDigit) ++ ']' :: fcLoop ss tail
      | _ => c :: fcLoop ss rest
    else c :: fcLoop ss rest
termination_by l.length
decreasing_by
  all_goals simp only [List.length_cons]
  all_goals try omega
  all_goals
    (apply Nat.lt_succ_of_le;
     refine Nat.le_trans ?_ (length_dropWhile_le_ch Char.isDigit _);
     rw [h]; simp)

/-- `formatCitations` of ChatSection.tsx: with no sources (absent or empty
list) the text is returned unchanged; otherwise numeric markers are
substituted by the scanner above. -/
def formatCitations (text : List Char) (sources : Option (List GroundingSource)) :
    List Char :=
  match sources with
  | none => text
  | some ss => if ss.isEmpty then text else fcLoop ss text

/-! ## Request compilation (`getTeachingSections` before the backend call) -/

/-- One uploaded PDF payload (base64 body plus mime type). -/
structure PdfPayload where
  base64 : String
  mimeType : String
deriving DecidableEq

/-- The context record passed to `getTeachingSections`.  Optional fields
absent in a call are modelled as empty lists or empty strings (falsy). -/
structure TeachContext where
  urls : List String
  pdfs : List PdfPayload
  pastedTexts : List String
  searchQuery : String
  focusTopic : String
  model : String
deriving DecidableEq

/-- Capability toggles requested from the backend. -/
inductive Tool where
  | urlContext
  | googleSearch
deriving DecidableEq

/-- Tool list construction: each channel adds its tool at most once (the
`tools.some(hasOwnProperty(...))` checks). -/
def buildTools (ctx : TeachContext) : List Tool :=
  let tools : List Tool := []
  let tools := if 0 < ctx.urls.length then
      (if !(tools.any (fun t => decide (t = Tool.urlContext))) then
        tools ++ [Tool.urlContext] else tools)
    else tools
  let tools := if ctx.searchQuery ≠ "" then
      (if !(tools.any (fun t => decide (t = Tool.googleSearch))) then
        tools ++ [Tool.googleSearch] else tools)
    else tools
  tools

/-- `Array.prototype.join` with a separator. -/
def joinSep (sep : List Char) : List (List Char) → List Char
  | [] => []
  | [x] => x
  | x :: xs => x ++ sep ++ joinSep sep xs

/-- The human-readable synthesis fragments, one per enabled channel, in the
order the source pushes them (urls, pdfs, pasted texts, search query). -/
def sourceDescriptions (ctx : TeachContext) : List (List Char) :=
  (if 0 < ctx.urls.length then
    [str "the " ++ (if 1 < ctx.urls.length then str "webpages" else str "webpage") ++
      str " at the URL(s): " ++ joinSep (str ", ") (ctx.urls.map (fun u => u.data))]
   else []) ++
  (if 0 < ctx.pdfs.length then
    [str "the provided " ++ natChars ctx.pdfs.length ++ str " PDF document(s)"]
   else []) ++
  (if 0 < ctx.pastedTexts.length then
    [str "the provided " ++ natChars ctx.pastedTexts.length ++
      str " pasted text snippet(s)"]
   else []) ++
  (if ctx.searchQuery ≠ "" then
    [str "a Google search for \"" ++ ctx.searchQuery.data ++ str "\""]
   else [])

/-- JavaScript `String.prototype.trim` (ASCII whitespace model). -/
def jsTrim (l : List Char) : List Char :=
  ((l.dropWhile isJsWs).reverse.dropWhile isJsWs).reverse

/-- `tools.some(tool => tool.hasOwnProperty('googleSearch'))`. -/
def useGoogleSearchOf (ctx : TeachContext) : Bool :=
  (buildTools ctx).any (fun t => decide (t = Tool.googleSearch))

/-- Fixed sections-and-QA instruction block appended to every system
instruction. -/
def sectionsBlock : List Char :=
  str "\nFor each section, provide a title and a series of question-and-answer pairs that capture the core concepts.\nThe \x27answer\x27 for each question should be detailed, comprehensive, and can include Markdown for formatting.\nImportant: Your output is for experienced Radiologists, so maintain a professional, technical tone."

/-- Grounding demand prepended in web-search mode. -/
def groundingChars : List Char :=
  str "\nWhen creating the teaching sections, you MUST ground your entire response in the search results provided by the Google Search tool. The sources you use will be displayed to the user."

/-- The missing-document escalation instruction (web-search branch). -/
def escalationChars : List Char :=
  str "\nIf after searching you determine that the most relevant information is contained within PDF documents that you cannot access, you MUST NOT generate the teaching sections. Instead, your entire response MUST be a valid JSON object with a single key \x27missing_pdfs\x27, which is an array of strings, where each string is the URL of a PDF you need the user to upload. Example: \x7b\"missing_pdfs\": [\"https://example.com/study.pdf\"]\x7d. Only use this format if you are confident that the primary information is in an inaccessible PDF. Otherwise, the final output MUST be a valid JSON array of objects, strictly adhering to the provided schema. Do not add any text before or after the JSON. Do not wrap the JSON in markdown backticks."

/-- Schema-adherence instruction (non-search branch). -/
def schemaChars : List Char :=
  str "\nThe final output MUST be a valid JSON array of objects, strictly adhering to the provided schema. Do not add any text before or after the JSON."

/-- The compiled system instruction of `getTeachingSections`: educator
preamble, optional focus-topic sentence (guarded by truthiness of the topic
and of its trim), the fixed sections block, then either the grounding demand
plus the escalation instruction (web-search mode) or only the
schema-adherence instruction. -/
def systemInstructionOf (ctx : TeachContext) : List Char :=
  let s := str "You are an expert radiology educator. Your task is to analyze the provided content and break it down into 5-7 sequential teaching sections."
  let s := if decide (ctx.focusTopic ≠ "") && !((jsTrim ctx.focusTopic.data).isEmpty) then
      s ++ str " The user has a specific interest in \"" ++ ctx.focusTopic.data ++
        str "\". Focus your analysis and section creation on this topic, extracting all relevant details from the content."
    else s
  let s := s ++ sectionsBlock
  if useGoogleSearchOf ctx then s ++ groundingChars ++ escalationChars
  else s ++ schemaChars

/-- The outgoing request: system instruction, capability list, and whether
the strict response schema is attached (`responseMimeType`/`responseSchema`
are set exactly when web search is not used). -/
structure CompiledRequest where
  systemInstruction : List Char
  tools : List Tool
  useSchema : Bool

/-- Failure raised before any backend call. -/
inductive CompileError where
  | noSourcesProvided
deriving DecidableEq

/-- Request compilation: with no enabled source channel the call throws
before building anything; otherwise the request carries the system
instruction, the tools, and the schema toggle. -/
def compileRequest (ctx : TeachContext) : Except CompileError CompiledRequest :=
  if (sourceDescriptions ctx).isEmpty then .error .noSourcesProvided
  else .ok ⟨systemInstructionOf ctx, buildTools ctx, !useGoogleSearchOf ctx⟩

/-! ## Supplemental-content resubmission (`handlePdfSubmission` in App.tsx) -/

/-- An uploaded file, identified by name for this model. -/
abbrev PdfFile := String

/-- The retained learning context (`lastLearningContext`). -/
structure LearningCtx where
  urls : List String
  pdfFiles : List PdfFile
  pastedTexts : List String
  searchQuery : String
  focusTopic : String
  model : String
deriving DecidableEq

/-- One per-URI supplemental entry (`{ file?, text?, name }`). -/
structure SuppEntry where
  file : Option PdfFile
  text : Option String
  name : String
deriving DecidableEq

/-- Failures of the resubmission handler. -/
inductive SubmitError where
  | contextLost
  | nothingToSubmit
deriving DecidableEq

/-- `handlePdfSubmission`: requires a retained context and at least one
attachment; builds the supplemental file list as bulk files followed by
per-URI files, collects the truthy per-URI pasted texts, then restarts the
pipeline on the context whose `pdfFiles` are extended and whose
`pastedTexts` are set to the collected texts.  `supplementalContent` is the
per-URI record in key-insertion order (`Object.values` order for string
keys). -/
def handlePdfSubmission (lastLearningContext : Option LearningCtx)
    (supplementalContent : List (String × SuppEntry))
    (supplementalBulkPdfs : List PdfFile) : Except SubmitError LearningCtx :=
  match lastLearningContext with
  | none => .error .contextLost
  | some ctx =>
    let hasIndividualContent : Bool := decide (0 < supplementalContent.length)
    let hasBulkContent : Bool := decide (0 < supplementalBulkPdfs.length)
    if !hasIndividualContent && !hasBulkContent then .error .nothingToSubmit
    else
      let allSupplementalPdfs :=
        supplementalBulkPdfs ++
          (supplementalContent.map (fun kv => kv.2.file)).filterMap id
      let allPastedTexts :=
        (supplementalContent.map (fun kv => kv.2.text)).filterMap
          (fun t => match t with
            | some s => if decide (s ≠ "") then some s else none
            | none => none)
      .ok { ctx with
              pdfFiles := ctx.pdfFiles ++ allSupplementalPdfs,
              pastedTexts := allPastedTexts }

/-! ## Claim C2 -/

/-- C2: the classification of a parsed teaching reply raises the
missing-documents escalation exactly when the reply is a JSON object whose
`missing_pdfs` field is a non-empty array, and the escalation carries that
array verbatim (same elements, same order); every other parsed shape yields
a normal lesson outcome or a failure, never an escalation. -/
theorem classifyParsed_missingPdfs_iff (j : JsonValue) (l : List JsonValue) :
    classifyParsed j = .ok (.missingPdfs l) ↔
      ∃ fields, j = .obj fields ∧
        fields.lookup "missing_pdfs" = some (.arr l) ∧ l ≠ [] := by
  cases j with
  | null => simp [classifyParsed]
  | bool b => simp [classifyParsed, jsProp]
  | num n => simp [classifyParsed, jsProp]
  | str s => simp [classifyParsed, jsProp]
  | arr xs => simp [classifyParsed, jsProp]
  | obj fields =>
    cases hl : fields.lookup "missing_pdfs" with
    | none => simp [classifyParsed, jsProp, hl]
    | some v =>
      cases v with
      | arr ys =>
        by_cases hy : ys.length > 0
        · constructor
          · intro h
            simp only [classifyParsed, jsProp, hl, if_pos hy] at h
            injection h with h'
            injection h' with h''
            exact ⟨fields, rfl, by rw [hl, h''], by
              intro hnil
              rw [h'', hnil] at hy
              simp at hy⟩
          · rintro ⟨f, hobj, hlk, hne⟩
            injection hobj with hf
            subst hf
            rw [hl] at hlk
            injection hlk with hv
            injection hv with hys
            subst hys
            simp [classifyParsed, jsProp, hl, if_pos hy]
        · constructor
          · intro h
            simp only [classifyParsed, jsProp, hl, if_neg hy] at h
            exact Except.noConfusion h
          · rintro ⟨f, hobj, hlk, hne⟩
            injection hobj with hf
            subst hf
            rw [hl] at hlk
            injection hlk with hv
            injection hv with hys
            subst hys
            exact absurd (List.length_pos.2 hne) hy
      | null => simp [classifyParsed, jsProp, hl]
      | bool b => simp [classifyParsed, jsProp, hl]
      | num n => simp [classifyParsed, jsProp, hl]
      | str s => simp [classifyParsed, jsProp, hl]
      | obj g => simp [classifyParsed, jsProp, hl]

/-! ## Claim C3 -/

/-- C3 counterexample: a parsed array containing an element with no title
and no QA pairs is returned verbatim as the sections, not rejected with the
unexpected-shape failure — no per-element validation exists. -/
theorem classifyParsed_no_validation_counterexample :
    classifyParsed (.arr [.obj []]) = .ok (.sections [.obj []]) ∧
      classifyParsed (.arr [.obj []]) ≠ .error .unexpectedShape := by
  refine ⟨rfl, ?_⟩
  intro h
  simp [classifyParsed, jsProp] at h

/-- C3 amended: every reply parsing to a plain JSON array is returned
verbatim as the sections, with no validation of elements; the
unexpected-shape failure arises only for non-array replies that are not an
escalation (here: objects without a `missing_pdfs` field). -/
theorem classifyParsed_array_verbatim :
    (∀ xs : List JsonValue, classifyParsed (.arr xs) = .ok (.sections xs)) ∧
    (∀ fields : List (String × JsonValue),
      fields.lookup "missing_pdfs" = none →
      classifyParsed (.obj fields) = .error .unexpectedShape) := by
  constructor
  · intro xs; rfl
  · intro fields h
    simp [classifyParsed, jsProp, h]

/-- Witness instantiating the amended C3 statement. -/
theorem classifyParsed_array_verbatim_witness :
    classifyParsed (.arr [.str "only"]) = .ok (.sections [.str "only"]) ∧
    classifyParsed (.obj []) = .error .unexpectedShape :=
  ⟨classifyParsed_array_verbatim.1 [.str "only"],
   classifyParsed_array_verbatim.2 [] rfl⟩

/-! ## Claim C7 -/

/-- Retained context of a previous cycle, holding one pasted text. -/
def c7Ctx : LearningCtx :=
  ⟨["https://x.org/a"], [], ["old pasted"], "", "", "gemini-2.5-pro"⟩

/-- Supplemental per-URI submission carrying one new pasted text. -/
def c7Supp : List (String × SuppEntry) :=
  [("https://x.org/b.pdf", ⟨none, some "new pasted", "Pasted content"⟩)]

/-- C7 counterexample: the retained context holds the pasted text of a
previous cycle, yet resubmission replaces `pastedTexts` with the new
per-URI texts — the old pasted text is dropped, not preserved. -/
theorem handlePdfSubmission_drops_old_pasted :
    c7Ctx.pastedTexts = ["old pasted"] ∧
    handlePdfSubmission (some c7Ctx) c7Supp [] =
      .ok { c7Ctx with pastedTexts := ["new pasted"] } ∧
    "old pasted" ∉ ({ c7Ctx with pastedTexts := ["new pasted"] } : LearningCtx).pastedTexts := by
  refine ⟨rfl, rfl, ?_⟩
  decide

/-- C7 amended: with a retained context and at least one attachment,
resubmission restarts the pipeline on the context whose `pdfFiles` are the
retained files followed by all bulk files followed by all per-URI files (in
that order), and whose `pastedTexts` are exactly the current per-URI pasted
texts (prior pasted texts are dropped); all other fields are retained. -/
theorem handlePdfSubmission_amended
    (ctx : LearningCtx) (supp : List (String × SuppEntry)) (bulk : List PdfFile)
    (h : supp ≠ [] ∨ bulk ≠ []) :
    handlePdfSubmission (some ctx) supp bulk =
      .ok { ctx with
              pdfFiles := ctx.pdfFiles ++ bulk ++
                (supp.map (fun kv => kv.2.file)).filterMap id,
              pastedTexts := (supp.map (fun kv => kv.2.text)).filterMap
                (fun t => match t with
                  | some s => if decide (s ≠ "") then some s else none
                  | none => none) } := by
  have hc : (!decide (0 < supp.length) && !decide (0 < bulk.length)) = false := by
    rcases h with h | h
    · have hp : 0 < supp.length := List.length_pos.2 h
      simp [hp]
    · have hp : 0 < bulk.length := List.length_pos.2 h
      simp [hp]
  simp [handlePdfSubmission, hc, List.append_assoc]

/-- Witness instantiating the amended C7 statement. -/
theorem handlePdfSubmission_amended_witness :
    (c7Supp ≠ [] ∨ ([] : List PdfFile) ≠ []) ∧
    handlePdfSubmission (some c7Ctx) c7Supp [] =
      .ok { c7Ctx with
              pdfFiles := c7Ctx.pdfFiles ++ [] ++
                (c7Supp.map (fun kv => kv.2.file)).filterMap id,
              pastedTexts := (c7Supp.map (fun kv => kv.2.text)).filterMap
                (fun t => match t with
                  | some s => if decide (s ≠ "") then some s else none
                  | none => none) } :=
  ⟨Or.inl (by decide),
   handlePdfSubmission_amended c7Ctx c7Supp [] (Or.inl (by decide))⟩

/-! ## Claim C8 -/

/-- C8: a backend failure whose message contains the safety marker makes the
chat turn return normally with the fixed apology and empty source and
related-link lists; every other backend failure is rethrown as the chat
backend error. -/
theorem getFollowUp_safety_dichotomy (msg : String) :
    (hasInfix msg.data (str "SAFETY") = true →
      getFollowUpResponseM (.error msg) = .ok ⟨apologyChars, [], []⟩) ∧
    (hasInfix msg.data (str "SAFETY") = false →
      getFollowUpResponseM (.error msg) = .error .chatBackendError) := by
  constructor <;> intro h <;> simp [getFollowUpResponseM, h]

/-- Witness instantiating C8 on a safety-block message and on an unrelated
failure message. -/
theorem getFollowUp_safety_dichotomy_witness :
    getFollowUpResponseM (.error "Blocked for SAFETY reasons") =
      .ok ⟨apologyChars, [], []⟩ ∧
    getFollowUpResponseM (.error "model unavailable") =
      .error .chatBackendError :=
  ⟨(getFollowUp_safety_dichotomy "Blocked for SAFETY reasons").1 (by decide),
   (getFollowUp_safety_dichotomy "model unavailable").2 (by decide)⟩

/-! ## Claim C9 -/

theorem takeWhile_append_all (p : Char → Bool) (l r : List Char)
    (h : ∀ c ∈ l, p c = true) :
    (l ++ r).takeWhile p = l ++ r.takeWhile p := by
  induction l with
  | nil => simp
  | cons c t ih =>
    have hc := h c (by simp)
    have ht := ih (fun d hd => h d (by simp [hd]))
    simp [List.takeWhile_cons, hc, ht]

theorem dropWhile_append_all (p : Char → Bool) (l r : List Char)
    (h : ∀ c ∈ l, p c = true) :
    (l ++ r).dropWhile p = r.dropWhile p := by
  induction l with
  | nil => simp
  | cons c t ih =>
    have hc := h c (by simp)
    have ht := ih (fun d hd => h d (by simp [hd]))
    simp [List.dropWhile_cons, hc, ht]

theorem fcLoop_cons_of_not_bracket (ss : List GroundingSource) (c : Char)
    (l : List Char) (hc : decide (c = '[') = false) :
    fcLoop ss (c :: l) = c :: fcLoop ss l := by
  rw [fcLoop.eq_def]
  simp [hc]

theorem fcLoop_copy (ss : List GroundingSource) (pre rest : List Char)
    (h : '[' ∉ pre) :
    fcLoop ss (pre ++ rest) = pre ++ fcLoop ss rest := by
  induction pre with
  | nil => simp
  | cons c p ih =>
    have hc : decide (c = '[') = false := by
      simp only [decide_eq_false_iff_not]
      intro hcc
      exact h (by simp [hcc])
    rw [List.cons_append,
      fcLoop_cons_of_not_bracket ss c (p ++ rest) hc,
      ih (fun hm => h (List.mem_cons_of_mem _ hm))]
    rfl

theorem fcLoop_marker (ss : List GroundingSource) (ds post : List Char)
    (hne : ds ≠ []) (hdig : ∀ c ∈ ds, c.isDigit = true) :
    fcLoop ss ('[' :: (ds ++ ']' :: post)) =
      (if 1 ≤ natOfDigits ds ∧ natOfDigits ds ≤ ss.length
       then citeHtml (natOfDigits ds) (ss.getD (natOfDigits ds - 1) defaultSource)
         ++ fcLoop ss post
       else ('[' :: ds) ++ (']' :: fcLoop ss post)) := by
  have h1 : (ds ++ ']' :: post).dropWhile Char.isDigit = ']' :: post := by
    rw [dropWhile_append_all Char.isDigit ds _ hdig, List.dropWhile_cons]
    simp
  have h2 : (ds ++ ']' :: post).takeWhile Char.isDigit = ds := by
    rw [takeWhile_append_all Char.isDigit ds _ hdig, List.takeWhile_cons]
    simp
  rw [fcLoop.eq_def]
  simp only [decide_eq_true_eq]
  simp only [if_true]
  split
  · rename_i tail heq
    rw [h1] at heq
    injection heq with hh ht
    subst ht
    have hie : ds.isEmpty = false := by
      cases ds with
      | nil => exact absurd rfl hne
      | cons a b => rfl
    rw [h2, hie]
    simp only [Bool.false_eq_true, if_false]
  · rename_i hno
    exact (hno post h1).elim

/-- C9: marker substitution in `formatCitations` — with no source list (or
an empty one) the text is returned verbatim; otherwise a numeric marker
`[k]` is replaced by a link to the k-th source exactly when `1 ≤ k ≤ length
of the sources`, and is kept verbatim otherwise, scanning continuing after
the marker; no marker value can fault, the list read being guarded. -/
theorem formatCitations_spec :
    (∀ t, formatCitations t none = t) ∧
    (∀ t, formatCitations t (some []) = t) ∧
    (∀ (ss : List GroundingSource) (pre ds post : List Char),
      '[' ∉ pre → ds ≠ [] → (∀ c ∈ ds, c.isDigit = true) →
      formatCitations (pre ++ '[' :: (ds ++ ']' :: post)) (some ss) =
        pre ++ (if 1 ≤ natOfDigits ds ∧ natOfDigits ds ≤ ss.length
                then citeHtml (natOfDigits ds)
                    (ss.getD (natOfDigits ds - 1) defaultSource)
                  ++ formatCitations post (some ss)
                else ('[' :: ds) ++ (']' :: formatCitations post (some ss)))) := by
  refine ⟨fun t => rfl, fun t => rfl, ?_⟩
  intro ss pre ds post hpre hne hdig
  cases ss with
  | nil =>
    have hcond : ¬ (1 ≤ natOfDigits ds ∧ natOfDigits ds ≤ ([] : List GroundingSource).length) := by
      rintro ⟨h1, h2⟩
      simp at h2
      omega
    rw [if_neg hcond]
    rfl
  | cons s0 stail =>
    have hfc : ∀ u, formatCitations u (some (s0 :: stail)) = fcLoop (s0 :: stail) u := by
      intro u; rfl
    rw [hfc, hfc, fcLoop_copy _ _ _ hpre, fcLoop_marker _ _ _ hne hdig]

/-- Witness instantiating the C9 substitution equation at a concrete marker
with one source. -/
theorem formatCitations_spec_witness :
    ('[' ∉ str "See ") ∧ (['1'] ≠ []) ∧ (∀ c ∈ ['1'], c.isDigit = true) ∧
    formatCitations (str "See " ++ '[' :: (['1'] ++ ']' :: str " end"))
        (some [⟨"https://a.com", "A"⟩]) =
      str "See " ++
        (if 1 ≤ natOfDigits ['1'] ∧ natOfDigits ['1'] ≤ [(⟨"https://a.com", "A"⟩ : GroundingSource)].length
         then citeHtml (natOfDigits ['1'])
             ([(⟨"https://a.com", "A"⟩ : GroundingSource)].getD (natOfDigits ['1'] - 1) defaultSource)
           ++ formatCitations (str " end") (some [⟨"https://a.com", "A"⟩])
         else ('[' :: ['1']) ++ (']' :: formatCitations (str " end") (some [⟨"https://a.com", "A"⟩]))) :=
  ⟨by decide, by decide, by decide,
   formatCitations_spec.2.2 [⟨"https://a.com", "A"⟩] (str "See ") ['1'] (str " end")
     (by decide) (by decide) (by decide)⟩

/-! ## Claims C5 and C10: shared lemmas about the source merge -/

theorem mem_chunkSources_nonempty (chunks : List GroundingChunk)
    (s : GroundingSource) (h : s ∈ chunkSources chunks) :
    s.uri ≠ "" ∧ s.title ≠ "" := by
  rcases List.mem_filterMap.1 h with ⟨c, _, hfc⟩
  cases hw : c.web with
  | none => rw [hw] at hfc; exact Option.noConfusion hfc
  | some w =>
    rw [hw] at hfc
    change (if w.uri ≠ "" ∧ w.title ≠ "" then
        some (⟨w.uri, w.title⟩ : GroundingSource) else none) = some s at hfc
    by_cases hg : w.uri ≠ "" ∧ w.title ≠ ""
    · rw [if_pos hg] at hfc
      injection hfc with hs
      subst hs
      exact hg
    · rw [if_neg hg] at hfc
      exact Option.noConfusion hfc

theorem mem_successfulUrlSources (metas : List UrlMeta) (s : GroundingSource)
    (h : s ∈ successfulUrlSources metas) :
    s.title = s.uri ∧ s.uri ≠ "" ∧
      ∃ m ∈ metas, m.urlRetrievalStatus = "URL_RETRIEVAL_STATUS_SUCCESS" ∧
        m.retrievedUrl = s.uri := by
  rcases List.mem_map.1 h with ⟨m, hm, hs⟩
  rcases List.mem_filter.1 hm with ⟨hmem, hcond⟩
  rw [Bool.and_eq_true, decide_eq_true_eq, decide_eq_true_eq] at hcond
  subst hs
  exact ⟨rfl, hcond.2, m, hmem, hcond.1, rfl⟩

theorem foldl_push_extends (extra : List GroundingSource) :
    ∀ acc, ∃ t, extra.foldl pushIfNewUri acc = acc ++ t := by
  induction extra with
  | nil => intro acc; exact ⟨[], by simp⟩
  | cons x rest ih =>
    intro acc
    rcases ih (pushIfNewUri acc x) with ⟨t, ht⟩
    rw [List.foldl_cons, ht]
    unfold pushIfNewUri
    split
    · exact ⟨t, rfl⟩
    · exact ⟨[x] ++ t, by simp⟩

theorem mem_foldl_push (extra : List GroundingSource) :
    ∀ acc s, s ∈ extra.foldl pushIfNewUri acc →
      s ∈ acc ∨ (s ∈ extra ∧ ∀ t ∈ acc, t.uri ≠ s.uri) := by
  induction extra with
  | nil => intro acc s h; exact Or.inl h
  | cons x rest ih =>
    intro acc s h
    rw [List.foldl_cons] at h
    rcases ih (pushIfNewUri acc x) s h with hmem | ⟨hrest, hnone⟩
    · unfold pushIfNewUri at hmem
      by_cases hany : acc.any (fun t => decide (t.uri = x.uri)) = true
      · rw [if_pos hany] at hmem
        exact Or.inl hmem
      · rw [if_neg hany] at hmem
        rcases List.mem_append.1 hmem with hacc | hx
        · exact Or.inl hacc
        · have hsx : s = x := by simpa using hx
          subst hsx
          refine Or.inr ⟨List.mem_cons_self _ _, ?_⟩
          intro t htmem heq
          apply hany
          exact List.any_eq_true.2 ⟨t, htmem, by simp [heq]⟩
    · refine Or.inr ⟨List.mem_cons_of_mem _ hrest, ?_⟩
      intro t htmem
      apply hnone
      unfold pushIfNewUri
      split
      · exact htmem
      · exact List.mem_append_left _ htmem

theorem countP_foldl_push (extra : List GroundingSource) (u : String) :
    ∀ acc,
      (0 < acc.countP (fun t => decide (t.uri = u)) →
        (extra.foldl pushIfNewUri acc).countP (fun t => decide (t.uri = u)) =
          acc.countP (fun t => decide (t.uri = u))) ∧
      (acc.countP (fun t => decide (t.uri = u)) = 0 →
        (extra.foldl pushIfNewUri acc).countP (fun t => decide (t.uri = u)) ≤ 1) := by
  induction extra with
  | nil => intro acc; exact ⟨fun _ => rfl, fun h => by simp [h]⟩
  | cons x rest ih =>
    intro acc
    rw [List.foldl_cons]
    by_cases hany : acc.any (fun t => decide (t.uri = x.uri)) = true
    · have hpush : pushIfNewUri acc x = acc := by
        unfold pushIfNewUri; rw [if_pos hany]
      rw [hpush]
      exact ih acc
    · have hpush : pushIfNewUri acc x = acc ++ [x] := by
        unfold pushIfNewUri; rw [if_neg hany]
      rw [hpush]
      have hcnt : (acc ++ [x]).countP (fun t => decide (t.uri = u)) =
          acc.countP (fun t => decide (t.uri = u)) +
            (if x.uri = u then 1 else 0) := by
        rw [List.countP_append]
        by_cases hxu : x.uri = u
        · simp [List.countP_cons, hxu]
        · simp [List.countP_cons, hxu]
      constructor
      · intro hpos
        have hxu : x.uri ≠ u := by
          intro hxu
          apply hany
          rcases List.countP_pos_iff.1 hpos with ⟨t, htmem, htp⟩
          rw [decide_eq_true_eq] at htp
          exact List.any_eq_true.2 ⟨t, htmem, by simp [htp, hxu]⟩
        have hsame : (acc ++ [x]).countP (fun t => decide (t.uri = u)) =
            acc.countP (fun t => decide (t.uri = u)) := by
          rw [hcnt, if_neg hxu]
          omega
        rw [(ih (acc ++ [x])).1 (by rw [hsame]; exact hpos), hsame]
      · intro hzero
        by_cases hxu : x.uri = u
        · have hone : (acc ++ [x]).countP (fun t => decide (t.uri = u)) = 1 := by
            rw [hcnt, hzero, if_pos hxu]
          rw [(ih (acc ++ [x])).1 (by rw [hone]; omega), hone]
        · have hz : (acc ++ [x]).countP (fun t => decide (t.uri = u)) = 0 := by
            rw [hcnt, hzero, if_neg hxu]
          exact (ih (acc ++ [x])).2 hz

/-! ## Claim C5 -/

/-- Two grounding chunks sharing a uri but differing in title. -/
def c5dupChunks : List GroundingChunk :=
  [⟨some ⟨"https://a.com", "A"⟩⟩, ⟨some ⟨"https://a.com", "B"⟩⟩]

/-- C5 counterexample: the grounding channel is inserted without any
internal deduplication, so a reply whose grounding chunks repeat a uri
produces a merged source list with that uri twice — the merged list is not
deduplicated by uri. -/
theorem lessonSources_dup_counterexample :
    lessonSources c5dupChunks [] =
      [⟨"https://a.com", "A"⟩, ⟨"https://a.com", "B"⟩] ∧
    ¬ ((lessonSources c5dupChunks []).map (fun s => s.uri)).Nodup := by
  refine ⟨rfl, ?_⟩
  decide

/-- C5 amended: the merged list starts with the grounding-channel entries,
unchanged and in order (duplicates within that channel are preserved); every
further entry stems from a retrieval-success record, uses its URL as both
uri and title, and carries a uri absent from the grounding channel; for any
uri already present in the grounding channel the merge adds nothing (so the
grounding title survives), and a uri absent from it appears at most once;
non-success retrieval records never become sources.  The spec's concrete
merge example holds. -/
theorem lessonSources_merge_amended (chunks : List GroundingChunk)
    (metas : List UrlMeta) :
    (∃ t, lessonSources chunks metas = chunkSources chunks ++ t) ∧
    (∀ s ∈ lessonSources chunks metas,
      s ∈ chunkSources chunks ∨
        (s.title = s.uri ∧ (∀ t ∈ chunkSources chunks, t.uri ≠ s.uri) ∧
          ∃ m ∈ metas, m.urlRetrievalStatus = "URL_RETRIEVAL_STATUS_SUCCESS" ∧
            m.retrievedUrl = s.uri)) ∧
    (∀ u : String,
      (0 < (chunkSources chunks).countP (fun t => decide (t.uri = u)) →
        (lessonSources chunks metas).countP (fun t => decide (t.uri = u)) =
          (chunkSources chunks).countP (fun t => decide (t.uri = u))) ∧
      ((chunkSources chunks).countP (fun t => decide (t.uri = u)) = 0 →
        (lessonSources chunks metas).countP (fun t => decide (t.uri = u)) ≤ 1)) ∧
    lessonSources [⟨some ⟨"https://a.com", "A"⟩⟩]
        [⟨"URL_RETRIEVAL_STATUS_SUCCESS", "https://a.com"⟩] =
      [⟨"https://a.com", "A"⟩] := by
  refine ⟨foldl_push_extends _ _, ?_, fun u => countP_foldl_push _ u _, rfl⟩
  intro s hs
  rcases mem_foldl_push _ _ s hs with hmem | ⟨hextra, hnone⟩
  · exact Or.inl hmem
  · rcases mem_successfulUrlSources metas s hextra with ⟨ht, _, hprov⟩
    exact Or.inr ⟨ht, fun t htm => hnone t htm, hprov⟩

/-- Witness instantiating the C5 amended statement on a concrete merge. -/
theorem lessonSources_merge_amended_witness :
    (⟨"https://b.org/p", "https://b.org/p"⟩ : GroundingSource) ∈
        lessonSources [⟨some ⟨"https://a.com", "A"⟩⟩]
          [⟨"URL_RETRIEVAL_STATUS_SUCCESS", "https://b.org/p"⟩] ∧
    ((⟨"https://b.org/p", "https://b.org/p"⟩ : GroundingSource) ∈
        chunkSources [⟨some ⟨"https://a.com", "A"⟩⟩] ∨
      ((⟨"https://b.org/p", "https://b.org/p"⟩ : GroundingSource).title =
          (⟨"https://b.org/p", "https://b.org/p"⟩ : GroundingSource).uri ∧
        (∀ t ∈ chunkSources [⟨some ⟨"https://a.com", "A"⟩⟩],
          t.uri ≠ (⟨"https://b.org/p", "https://b.org/p"⟩ : GroundingSource).uri) ∧
        ∃ m ∈ [(⟨"URL_RETRIEVAL_STATUS_SUCCESS", "https://b.org/p"⟩ : UrlMeta)],
          m.urlRetrievalStatus = "URL_RETRIEVAL_STATUS_SUCCESS" ∧
            m.retrievedUrl = (⟨"https://b.org/p", "https://b.org/p"⟩ : GroundingSource).uri)) :=
  ⟨by decide,
   (lessonSources_merge_amended [⟨some ⟨"https://a.com", "A"⟩⟩]
       [⟨"URL_RETRIEVAL_STATUS_SUCCESS", "https://b.org/p"⟩]).2.1
     ⟨"https://b.org/p", "https://b.org/p"⟩ (by decide)⟩

/-! ## Claim C10 -/

/-- C10: a grounding chunk lacking a web payload or carrying an empty uri or
title is silently omitted from the source list on both paths (removing it
changes nothing), and consequently every source in the lesson path's merged
list and in the chat path's source list has a non-empty uri and a non-empty
title. -/
theorem grounding_chunk_validity :
    (∀ (pre : List GroundingChunk) (c : GroundingChunk) (post : List GroundingChunk),
      (c.web = none ∨ ∃ w, c.web = some w ∧ (w.uri = "" ∨ w.title = "")) →
      chunkSources (pre ++ c :: post) = chunkSources (pre ++ post)) ∧
    (∀ (chunks : List GroundingChunk) (metas : List UrlMeta),
      ∀ s ∈ lessonSources chunks metas, s.uri ≠ "" ∧ s.title ≠ "") ∧
    (∀ (r : ChatReply) (resp : ChatResponse),
      getFollowUpResponseM (.ok r) = .ok resp →
      ∀ s ∈ resp.sources, s.uri ≠ "" ∧ s.title ≠ "") := by
  refine ⟨?_, ?_, ?_⟩
  · intro pre c post hbad
    unfold chunkSources
    rw [List.filterMap_append, List.filterMap_append, List.filterMap_cons]
    have hnone : (match c.web with
        | some w => if w.uri ≠ "" ∧ w.title ≠ "" then
            some (⟨w.uri, w.title⟩ : GroundingSource) else none
        | none => none) = none := by
      rcases hbad with hnil | ⟨w, hw, hwe⟩
      · rw [hnil]
      · rw [hw]
        change (if w.uri ≠ "" ∧ w.title ≠ "" then
            some (⟨w.uri, w.title⟩ : GroundingSource) else none) = none
        rcases hwe with h1 | h1 <;>
          · rw [if_neg]
            intro hand
            rcases hand with ⟨hu, ht⟩
            first
              | exact hu h1
              | exact ht h1
    rw [hnone]
  · intro chunks metas s hs
    rcases mem_foldl_push _ _ s hs with hmem | ⟨hextra, _⟩
    · exact mem_chunkSources_nonempty chunks s hmem
    · rcases mem_successfulUrlSources metas s hextra with ⟨ht, hne, _⟩
      exact ⟨hne, by rw [ht]; exact hne⟩
  · intro r resp hok s hs
    have hsrc : resp.sources = chunkSources r.chunks := by
      have := congrArg (fun e => match e with
        | Except.ok (v : ChatResponse) => v.sources
        | Except.error _ => []) hok
      simpa using this.symm
    rw [hsrc] at hs
    exact mem_chunkSources_nonempty r.chunks s hs

/-- Witness instantiating the C10 statements on concrete chunk lists. -/
theorem grounding_chunk_validity_witness :
    chunkSources ([⟨some ⟨"https://a.com", "A"⟩⟩] ++
        (⟨some ⟨"", "NoUri"⟩⟩ : GroundingChunk) :: [⟨none⟩]) =
      chunkSources ([⟨some ⟨"https://a.com", "A"⟩⟩] ++ [⟨none⟩]) ∧
    ((⟨"https://a.com", "A"⟩ : GroundingSource).uri ≠ "" ∧
      (⟨"https://a.com", "A"⟩ : GroundingSource).title ≠ "") :=
  ⟨grounding_chunk_validity.1 [⟨some ⟨"https://a.com", "A"⟩⟩]
      ⟨some ⟨"", "NoUri"⟩⟩ [⟨none⟩] (Or.inr ⟨⟨"", "NoUri"⟩, rfl, Or.inl rfl⟩),
   grounding_chunk_validity.2.1 [⟨some ⟨"https://a.com", "A"⟩⟩] []
     ⟨"https://a.com", "A"⟩ (by decide)⟩

/-! ## Claim C6 -/

theorem jsSetDedupGo_spec :
    ∀ (l seen : List String),
      (jsSetDedupGo seen l).Nodup ∧
      (∀ a ∈ jsSetDedupGo seen l, a ∈ l ∧ a ∉ seen) := by
  intro l
  induction l with
  | nil => intro seen; simp [jsSetDedupGo]
  | cons a rest ih =>
    intro seen
    by_cases hseen : seen.any (fun b => decide (b = a)) = true
    · have hred : jsSetDedupGo seen (a :: rest) = jsSetDedupGo seen rest := by
        show (if (seen.any fun b => decide (b = a)) = true then jsSetDedupGo seen rest
          else a :: jsSetDedupGo (seen ++ [a]) rest) = jsSetDedupGo seen rest
        rw [if_pos hseen]
      rw [hred]
      exact ⟨(ih seen).1, fun x hx =>
        ⟨List.mem_cons_of_mem _ ((ih seen).2 x hx).1, ((ih seen).2 x hx).2⟩⟩
    · have hred : jsSetDedupGo seen (a :: rest) =
          a :: jsSetDedupGo (seen ++ [a]) rest := by
        show (if (seen.any fun b => decide (b = a)) = true then jsSetDedupGo seen rest
          else a :: jsSetDedupGo (seen ++ [a]) rest) =
          a :: jsSetDedupGo (seen ++ [a]) rest
        rw [if_neg hseen]
      rw [hred]
      have hanotseen : a ∉ seen := by
        intro hmem
        exact hseen (List.any_eq_true.2 ⟨a, hmem, by simp⟩)
      refine ⟨List.nodup_cons.2 ⟨?_, (ih (seen ++ [a])).1⟩, ?_⟩
      · intro hx
        have := ((ih (seen ++ [a])).2 a hx).2
        exact this (List.mem_append_right _ (by simp))
      · intro x hx
        rcases List.mem_cons.1 hx with rfl | hx'
        · exact ⟨List.mem_cons_self _ _, hanotseen⟩
        · have h2 := (ih (seen ++ [a])).2 x hx'
          exact ⟨List.mem_cons_of_mem _ h2.1,
            fun hms => h2.2 (List.mem_append_left _ hms)⟩

/-- C6: the chat turn returns the answer text unmodified (so numeric markers
stay embedded), the related links are URL tokens of the answer that survived
cleaning, each with uri equal to title, never colliding with a grounding
source uri, mutually distinct; the spec's concrete example (prose with `[1]`
and a fragment-bearing URL) produces exactly the fragment-stripped link and
leaves the text untouched. -/
theorem followUp_relatedLinks_spec (r : ChatReply) :
    getFollowUpResponseM (.ok r) =
      .ok ⟨r.text, chunkSources r.chunks, relatedLinksOf r.text r.chunks⟩ ∧
    (∀ l ∈ relatedLinksOf r.text r.chunks,
      l.title = l.uri ∧ ∀ s ∈ chunkSources r.chunks, s.uri ≠ l.uri) ∧
    ((relatedLinksOf r.text r.chunks).map (fun l => l.uri)).Nodup ∧
    (∀ l ∈ relatedLinksOf r.text r.chunks,
      l.uri ∈ (extractUrls false r.text).filterMap jsUrlCleaned) ∧
    getFollowUpResponseM
        (.ok ⟨str "See [1] and https://b.com/x#frag.",
          [⟨some ⟨"https://a.com", "A"⟩⟩]⟩) =
      .ok ⟨str "See [1] and https://b.com/x#frag.",
        [⟨"https://a.com", "A"⟩],
        [⟨"https://b.com/x", "https://b.com/x"⟩]⟩ := by
  refine ⟨rfl, ?_, ?_, ?_, by rfl⟩
  · intro l hl
    unfold relatedLinksOf at hl
    rcases List.mem_map.1 hl with ⟨u, hu, hlu⟩
    subst hlu
    rcases List.mem_filter.1 hu with ⟨_, hp⟩
    refine ⟨rfl, ?_⟩
    intro s hs heq
    rw [Bool.not_eq_true', List.any_eq_false] at hp
    exact absurd (by simp [heq]) (hp s hs)
  · unfold relatedLinksOf
    rw [List.map_map]
    have hid : ((fun l : GroundingSource => l.uri) ∘ (fun u : String => (⟨u, u⟩ : GroundingSource))) =
        fun u : String => u := rfl
    rw [hid, List.map_id']
    exact List.Nodup.filter _ (jsSetDedupGo_spec _ []).1
  · intro l hl
    unfold relatedLinksOf at hl
    rcases List.mem_map.1 hl with ⟨u, hu, hlu⟩
    subst hlu
    rcases List.mem_filter.1 hu with ⟨hmem, _⟩
    exact ((jsSetDedupGo_spec _ []).2 u hmem).1

/-- Witness instantiating the C6 membership statements on the spec's
concrete example. -/
theorem followUp_relatedLinks_spec_witness :
    ((⟨"https://b.com/x", "https://b.com/x"⟩ : GroundingSource) ∈
      relatedLinksOf (str "See [1] and https://b.com/x#frag.")
        [⟨some ⟨"https://a.com", "A"⟩⟩]) ∧
    ((⟨"https://b.com/x", "https://b.com/x"⟩ : GroundingSource).title =
        (⟨"https://b.com/x", "https://b.com/x"⟩ : GroundingSource).uri ∧
      ∀ s ∈ chunkSources [⟨some ⟨"https://a.com", "A"⟩⟩],
        s.uri ≠ (⟨"https://b.com/x", "https://b.com/x"⟩ : GroundingSource).uri) :=
  ⟨by decide,
   (followUp_relatedLinks_spec
       ⟨str "See [1] and https://b.com/x#frag.",
        [⟨some ⟨"https://a.com", "A"⟩⟩]⟩).2.1
     ⟨"https://b.com/x", "https://b.com/x"⟩ (by decide)⟩

/-! ## Claim C1 -/

/-- A schema-mode request: one URL, no search query. -/
def c1NoSearchCtx : TeachContext :=
  ⟨["https://x.org/a"], [], [], "", "", "gemini-2.5-pro"⟩

/-- A web-search request over the same URL. -/
def c1SearchCtx : TeachContext :=
  ⟨["https://x.org/a"], [], [], "radiology pneumonia", "", "gemini-2.5-pro"⟩

set_option maxRecDepth 40000

theorem missing_token_in_escalation :
    hasInfix escalationChars (str "missing_pdfs") = true := by decide

theorem escalation_not_in_noSearch :
    hasInfix (systemInstructionOf c1NoSearchCtx) escalationChars = false := by
  apply not_hasInfix_of_sub missing_token_in_escalation
  decide

/-- C1 counterexample: the schema-mode request (no web search, strict
schema attached) compiles successfully, yet its system instruction does not
contain the missing-document escalation instruction — the escalation
instruction is not appended unconditionally. -/
theorem compileRequest_schema_mode_lacks_escalation :
    compileRequest c1NoSearchCtx =
      .ok ⟨systemInstructionOf c1NoSearchCtx, [Tool.urlContext], true⟩ ∧
    hasInfix (systemInstructionOf c1NoSearchCtx) escalationChars = false :=
  ⟨rfl, escalation_not_in_noSearch⟩

/-- C1 amended: the missing-document escalation instruction is part of the
system instruction exactly on the web-search side of the output-format
branch — it is appended (as a suffix, hence contained) whenever the
web-search capability is requested, and the schema-mode instruction of a
request without web search does not contain it. -/
theorem systemInstruction_escalation_amended :
    (∀ ctx : TeachContext, useGoogleSearchOf ctx = true →
      hasInfix (systemInstructionOf ctx) escalationChars = true) ∧
    hasInfix (systemInstructionOf c1NoSearchCtx) escalationChars = false := by
  constructor
  · intro ctx h
    simp only [systemInstructionOf, h, if_true]
    exact hasInfix_append_self _ _
  · exact escalation_not_in_noSearch

/-- Witness instantiating the amended C1 statement on a search-mode
request. -/
theorem systemInstruction_escalation_amended_witness :
    useGoogleSearchOf c1SearchCtx = true ∧
    hasInfix (systemInstructionOf c1SearchCtx) escalationChars = true :=
  ⟨by decide, systemInstruction_escalation_amended.1 c1SearchCtx (by decide)⟩

/-! ## Claim C4: lemmas about the fenced-block matcher -/

theorem pfx_cons_false (a : Char) (as : List Char) (c : Char) (t : List Char)
    (h : ¬ c = a) : pfx (a :: as) (c :: t) = false := by
  have hd : decide (a = c) = false := decide_eq_false (fun he => h he.symm)
  simp [pfx, hd]

theorem isJsWs_tick : isJsWs tickChar = false := by decide

theorem extractFenced_cons_skip (c : Char) (t : List Char) (h : ¬ c = tickChar) :
    extractFenced (c :: t) = extractFenced t := by
  have hp : pfx ticks3 (c :: t) = false :=
    pfx_cons_false tickChar [tickChar, tickChar] c t h
  simp [extractFenced, hp]

theorem extractFenced_skip (pre z : List Char) (h : tickChar ∉ pre) :
    extractFenced (pre ++ z) = extractFenced z := by
  induction pre with
  | nil => rfl
  | cons c p ih =>
    rw [List.cons_append,
      extractFenced_cons_skip c _ (fun he => h (by simp [he])),
      ih (fun hm => h (List.mem_cons_of_mem _ hm))]

theorem extractFenced_none (s : List Char) (h : tickChar ∉ s) :
    extractFenced s = none := by
  have hs := extractFenced_skip s [] h
  rw [List.append_nil] at hs
  rw [hs]
  rfl

theorem dropWhile_append_ne_nil (p : Char → Bool) (l r : List Char)
    (h : l.dropWhile p ≠ []) :
    (l ++ r).dropWhile p = l.dropWhile p ++ r := by
  induction l with
  | nil => exact absurd rfl h
  | cons c t ih =>
    cases hc : p c with
    | false => simp [List.dropWhile_cons, hc]
    | true =>
      rw [List.dropWhile_cons, hc] at h
      simp only [if_true] at h
      simp [List.dropWhile_cons, hc, ih h]

theorem mem_dropWhile_sub (p : Char → Bool) (l : List Char) :
    ∀ c, c ∈ l.dropWhile p → c ∈ l := by
  induction l with
  | nil => intro c hc; simp [List.dropWhile] at hc
  | cons x t ih =>
    intro c hc
    rw [List.dropWhile_cons] at hc
    by_cases hx : p x = true
    · rw [if_pos hx] at hc
      exact List.mem_cons_of_mem _ (ih c hc)
    · rw [if_neg hx] at hc
      exact hc

theorem closeHere_false_of_no_tick (d rest : List Char)
    (hn : tickChar ∉ d) (hne : d.dropWhile isJsWs ≠ []) :
    closeHere (d ++ rest) = false := by
  unfold closeHere
  rw [dropWhile_append_ne_nil isJsWs d rest hne]
  cases hd : d.dropWhile isJsWs with
  | nil => exact absurd hd hne
  | cons x xs =>
    have hx : x ∈ d :=
      mem_dropWhile_sub isJsWs d x (hd ▸ List.mem_cons_self x xs)
    rw [List.cons_append]
    exact pfx_cons_false tickChar [tickChar, tickChar] x (xs ++ rest)
      (fun he => hn (he ▸ hx))

theorem dropWhile_ne_nil_of_last (p : Char → Bool) :
    ∀ (d : List Char) (c : Char), d.getLast? = some c → p c = false →
      d.dropWhile p ≠ [] := by
  intro d
  induction d with
  | nil => intro c hc; simp at hc
  | cons x t ih =>
    intro c hc hp
    cases t with
    | nil =>
      simp at hc
      subst hc
      simp [List.dropWhile_cons, hp]
    | cons y ys =>
      rw [List.getLast?_cons_cons] at hc
      rw [List.dropWhile_cons]
      by_cases hx : p x = true
      · rw [if_pos hx]
        exact ih c hc hp
      · rw [if_neg hx]
        simp

theorem fencedBody_of_closeHere (r : List Char) (h : closeHere r = true) :
    fencedBody r = some [] := by
  cases r with
  | nil => simp [fencedBody, h]
  | cons c t => simp [fencedBody, h]

theorem closeHere_at_close (ws rest : List Char)
    (hws : ∀ c ∈ ws, isJsWs c = true) :
    closeHere (ws ++ (ticks3 ++ rest)) = true := by
  unfold closeHere
  rw [dropWhile_append_all isJsWs ws _ hws,
    show ticks3 ++ rest = tickChar :: ([tickChar, tickChar] ++ rest) from rfl,
    List.dropWhile_cons]
  simp only [isJsWs_tick, Bool.false_eq_true, if_false]
  exact pfx_self_append _ _

theorem fencedBody_exact :
    ∀ (d ws2 post : List Char), d ≠ [] → tickChar ∉ d →
      (∀ c ∈ ws2, isJsWs c = true) →
      (∀ c, d.getLast? = some c → isJsWs c = false) →
      fencedBody (d ++ (ws2 ++ (ticks3 ++ post))) = some d := by
  intro d
  induction d with
  | nil => intro ws2 post h; exact absurd rfl h
  | cons c t ih =>
    intro ws2 post _ hnt hws hlast
    have hdw : ((c :: t).dropWhile isJsWs) ≠ [] := by
      cases hg : (c :: t).getLast? with
      | none => simp at hg
      | some c0 => exact dropWhile_ne_nil_of_last isJsWs (c :: t) c0 hg (hlast c0 hg)
    have hch : closeHere ((c :: t) ++ (ws2 ++ (ticks3 ++ post))) = false :=
      closeHere_false_of_no_tick (c :: t) _ hnt hdw
    rw [List.cons_append] at hch ⊢
    rw [show fencedBody (c :: (t ++ (ws2 ++ (ticks3 ++ post)))) =
        if closeHere (c :: (t ++ (ws2 ++ (ticks3 ++ post)))) then some []
        else (fencedBody (t ++ (ws2 ++ (ticks3 ++ post)))).map (c :: ·) from rfl,
      hch]
    simp only [Bool.false_eq_true, if_false]
    cases t with
    | nil =>
      rw [List.nil_append,
        fencedBody_of_closeHere _ (closeHere_at_close ws2 post hws)]
      rfl
    | cons y ys =>
      rw [ih ws2 post (by simp) (fun hm => hnt (List.mem_cons_of_mem _ hm)) hws
        (fun c0 hc0 => hlast c0 (by rw [List.getLast?_cons_cons]; exact hc0))]
      rfl

theorem openFence_json (ws1 content ws2 post : List Char)
    (hws1 : ∀ c ∈ ws1, isJsWs c = true)
    (hws2 : ∀ c ∈ ws2, isJsWs c = true)
    (hne : content ≠ []) (hnt : tickChar ∉ content)
    (hhead : ∀ c, content.head? = some c → isJsWs c = false)
    (hlast : ∀ c, content.getLast? = some c → isJsWs c = false) :
    openFence (str "json" ++ (ws1 ++ (content ++ (ws2 ++ (ticks3 ++ post))))) =
      some content := by
  have hj : pfx (str "json")
      (str "json" ++ (ws1 ++ (content ++ (ws2 ++ (ticks3 ++ post))))) = true :=
    pfx_self_append _ _
  have hdropc : (content ++ (ws2 ++ (ticks3 ++ post))).dropWhile isJsWs =
      content ++ (ws2 ++ (ticks3 ++ post)) := by
    cases content with
    | nil => exact absurd rfl hne
    | cons c0 cs =>
      rw [List.cons_append, List.dropWhile_cons]
      have hc0 : isJsWs c0 = false := hhead c0 rfl
      simp [hc0]
  simp only [openFence, hj, if_true]
  rw [show (str "json" ++ (ws1 ++ (content ++ (ws2 ++ (ticks3 ++ post))))).drop 4 =
      ws1 ++ (content ++ (ws2 ++ (ticks3 ++ post))) from rfl,
    dropWhile_append_all isJsWs ws1 _ hws1, hdropc]
  exact fencedBody_exact content ws2 post hne hnt hws2 hlast

theorem openFence_plain (w1 : Char) (ws1 content ws2 post : List Char)
    (hw1 : isJsWs w1 = true)
    (hws1 : ∀ c ∈ ws1, isJsWs c = true)
    (hws2 : ∀ c ∈ ws2, isJsWs c = true)
    (hne : content ≠ []) (hnt : tickChar ∉ content)
    (hhead : ∀ c, content.head? = some c → isJsWs c = false)
    (hlast : ∀ c, content.getLast? = some c → isJsWs c = false) :
    openFence ((w1 :: ws1) ++ (content ++ (ws2 ++ (ticks3 ++ post)))) =
      some content := by
  have hj : pfx (str "json")
      ((w1 :: ws1) ++ (content ++ (ws2 ++ (ticks3 ++ post)))) = false := by
    rw [List.cons_append]
    apply pfx_cons_false
    intro he
    rw [he] at hw1
    exact absurd hw1 (by decide)
  have hdropc : (content ++ (ws2 ++ (ticks3 ++ post))).dropWhile isJsWs =
      content ++ (ws2 ++ (ticks3 ++ post)) := by
    cases content with
    | nil => exact absurd rfl hne
    | cons c0 cs =>
      rw [List.cons_append, List.dropWhile_cons]
      have hc0 : isJsWs c0 = false := hhead c0 rfl
      simp [hc0]
  simp only [openFence, hj, Bool.false_eq_true, if_false]
  rw [dropWhile_append_all isJsWs (w1 :: ws1) _ ?hall, hdropc]
  case hall =>
    intro c hc
    rcases List.mem_cons.1 hc with rfl | hc
    · exact hw1
    · exact hws1 c hc
  exact fencedBody_exact content ws2 post hne hnt hws2 hlast

theorem extractFenced_at_open (w g : List Char) (h : openFence w = some g) :
    extractFenced (ticks3 ++ w) = some g := by
  have hp : pfx ticks3 (tickChar :: ([tickChar, tickChar] ++ w)) = true :=
    pfx_self_append _ _
  show extractFenced (tickChar :: ([tickChar, tickChar] ++ w)) = some g
  rw [show extractFenced (tickChar :: ([tickChar, tickChar] ++ w)) =
      if pfx ticks3 (tickChar :: ([tickChar, tickChar] ++ w)) then
        match openFence ((tickChar :: ([tickChar, tickChar] ++ w)).drop 3) with
        | some g => some g
        | none => extractFenced ([tickChar, tickChar] ++ w)
      else extractFenced ([tickChar, tickChar] ++ w) from rfl,
    hp]
  simp only [if_true]
  rw [show (tickChar :: ([tickChar, tickChar] ++ w)).drop 3 = w from rfl, h]

/-! ## Claim C4: lemmas about the bracket fallback -/

theorem takeToLast_exact (ch : Char) (mid post : List Char) (h : ch ∉ post) :
    takeToLast ch (mid ++ ch :: post) = mid ++ [ch] := by
  unfold takeToLast
  rw [List.reverse_append, List.reverse_cons, List.append_assoc,
    dropWhile_append_all _ post.reverse _ ?hall]
  case hall =>
    intro c hc
    have hcm : c ∈ post := List.mem_reverse.1 hc
    have : ¬ c = ch := fun he => h (he ▸ hcm)
    simp [this]
  rw [show [ch] ++ mid.reverse = ch :: mid.reverse from rfl, List.dropWhile_cons]
  simp

theorem bracketSpan_skip (pre z : List Char) (h1 : '\x7b' ∉ pre)
    (h2 : '[' ∉ pre) :
    bracketSpan (pre ++ z) = bracketSpan z := by
  induction pre with
  | nil => rfl
  | cons c p ih =>
    have hc1 : decide (c = '\x7b') = false :=
      decide_eq_false (fun he => h1 (by simp [he]))
    have hc2 : decide (c = '[') = false :=
      decide_eq_false (fun he => h2 (by simp [he]))
    rw [List.cons_append]
    rw [show bracketSpan (c :: (p ++ z)) =
        if decide (c = '\x7b') && (p ++ z).any (fun d => decide (d = '\x7d')) then
          some (c :: takeToLast '\x7d' (p ++ z))
        else if decide (c = '[') && (p ++ z).any (fun d => decide (d = ']')) then
          some (c :: takeToLast ']' (p ++ z))
        else bracketSpan (p ++ z) from rfl,
      hc1, hc2]
    simp only [Bool.false_and, Bool.false_eq_true, if_false]
    exact ih (fun hm => h1 (List.mem_cons_of_mem _ hm))
      (fun hm => h2 (List.mem_cons_of_mem _ hm))

theorem bracketSpan_obj (mid post : List Char) (hpost : '\x7d' ∉ post) :
    bracketSpan ('\x7b' :: (mid ++ '\x7d' :: post)) =
      some ('\x7b' :: (mid ++ ['\x7d'])) := by
  have hany : (mid ++ '\x7d' :: post).any (fun d => decide (d = '\x7d')) = true :=
    List.any_eq_true.2 ⟨'\x7d', List.mem_append_right _ (List.mem_cons_self _ _),
      by simp⟩
  rw [show bracketSpan ('\x7b' :: (mid ++ '\x7d' :: post)) =
      if decide ('\x7b' = '\x7b') &&
          (mid ++ '\x7d' :: post).any (fun d => decide (d = '\x7d')) then
        some ('\x7b' :: takeToLast '\x7d' (mid ++ '\x7d' :: post))
      else if decide ('\x7b' = '[') &&
          (mid ++ '\x7d' :: post).any (fun d => decide (d = ']')) then
        some ('\x7b' :: takeToLast ']' (mid ++ '\x7d' :: post))
      else bracketSpan (mid ++ '\x7d' :: post) from rfl,
    hany, takeToLast_exact _ _ _ hpost]
  simp

theorem bracketSpan_arr (mid post : List Char) (hpost : ']' ∉ post) :
    bracketSpan ('[' :: (mid ++ ']' :: post)) =
      some ('[' :: (mid ++ [']'])) := by
  have hany : (mid ++ ']' :: post).any (fun d => decide (d = ']')) = true :=
    List.any_eq_true.2 ⟨']', List.mem_append_right _ (List.mem_cons_self _ _),
      by simp⟩
  rw [show bracketSpan ('[' :: (mid ++ ']' :: post)) =
      if decide ('[' = '\x7b') &&
          (mid ++ ']' :: post).any (fun d => decide (d = '\x7d')) then
        some ('[' :: takeToLast '\x7d' (mid ++ ']' :: post))
      else if decide ('[' = '[') &&
          (mid ++ ']' :: post).any (fun d => decide (d = ']')) then
        some ('[' :: takeToLast ']' (mid ++ ']' :: post))
      else bracketSpan (mid ++ ']' :: post) from rfl,
    hany, takeToLast_exact _ _ _ hpost]
  simp

theorem bracketSpan_none (s : List Char) (h1 : '\x7b' ∉ s) (h2 : '[' ∉ s) :
    bracketSpan s = none := by
  have hs := bracketSpan_skip s [] h1 h2
  rw [List.append_nil] at hs
  rw [hs]
  rfl

/-! ## Claim C4 -/

/-- C4: free-text extraction — (1) a reply of the shape
`prose ++ fenced block ++ prose` (with or without the `json` language tag)
yields exactly the fenced content, the surrounding prose being discarded;
(2) with no fence present, the bracket fallback extracts from the first `{`
(or, failing that, the first `[`) to the last matching closer of the same
kind; (3) a reply with neither a fence nor a bracketed span fails with the
unparsable-response error, before any JSON parsing. -/
theorem extractJsonText_spec :
    (∀ pre ws1 content ws2 post : List Char,
      tickChar ∉ pre → tickChar ∉ content →
      (∀ c ∈ ws1, isJsWs c = true) → (∀ c ∈ ws2, isJsWs c = true) →
      content ≠ [] →
      (∀ c, content.head? = some c → isJsWs c = false) →
      (∀ c, content.getLast? = some c → isJsWs c = false) →
      extractJsonText (pre ++ (ticks3 ++ (str "json" ++
          (ws1 ++ (content ++ (ws2 ++ (ticks3 ++ post))))))) = .ok content) ∧
    (∀ (pre : List Char) (w1 : Char) (ws1 content ws2 post : List Char),
      tickChar ∉ pre → tickChar ∉ content →
      isJsWs w1 = true →
      (∀ c ∈ ws1, isJsWs c = true) → (∀ c ∈ ws2, isJsWs c = true) →
      content ≠ [] →
      (∀ c, content.head? = some c → isJsWs c = false) →
      (∀ c, content.getLast? = some c → isJsWs c = false) →
      extractJsonText (pre ++ (ticks3 ++
          ((w1 :: ws1) ++ (content ++ (ws2 ++ (ticks3 ++ post)))))) =
        .ok content) ∧
    (∀ pre mid post : List Char,
      tickChar ∉ pre → tickChar ∉ mid → tickChar ∉ post →
      '\x7b' ∉ pre → '[' ∉ pre → '\x7d' ∉ post →
      extractJsonText (pre ++ '\x7b' :: (mid ++ '\x7d' :: post)) =
        .ok ('\x7b' :: (mid ++ ['\x7d']))) ∧
    (∀ pre mid post : List Char,
      tickChar ∉ pre → tickChar ∉ mid → tickChar ∉ post →
      '\x7b' ∉ pre → '[' ∉ pre → ']' ∉ post →
      extractJsonText (pre ++ '[' :: (mid ++ ']' :: post)) =
        .ok ('[' :: (mid ++ [']']))) ∧
    (∀ s : List Char, tickChar ∉ s → '\x7b' ∉ s → '[' ∉ s →
      extractJsonText s = .error .unparsableResponse) := by
  refine ⟨?_, ?_, ?_, ?_, ?_⟩
  · intro pre ws1 content ws2 post hpre hnt hws1 hws2 hne hhead hlast
    have hf : extractFenced (pre ++ (ticks3 ++ (str "json" ++
        (ws1 ++ (content ++ (ws2 ++ (ticks3 ++ post))))))) = some content := by
      rw [extractFenced_skip pre _ hpre]
      exact extractFenced_at_open _ _
        (openFence_json ws1 content ws2 post hws1 hws2 hne hnt hhead hlast)
    have hie : content.isEmpty = false := by
      cases content with
      | nil => exact absurd rfl hne
      | cons a b => rfl
    simp [extractJsonText, hf, hie]
  · intro pre w1 ws1 content ws2 post hpre hnt hw1 hws1 hws2 hne hhead hlast
    have hf : extractFenced (pre ++ (ticks3 ++
        ((w1 :: ws1) ++ (content ++ (ws2 ++ (ticks3 ++ post)))))) =
        some content := by
      rw [extractFenced_skip pre _ hpre]
      exact extractFenced_at_open _ _
        (openFence_plain w1 ws1 content ws2 post hw1 hws1 hws2 hne hnt hhead hlast)
    have hie : content.isEmpty = false := by
      cases content with
      | nil => exact absurd rfl hne
      | cons a b => rfl
    simp only [List.cons_append] at hf
    simp [extractJsonText, hf, hie]
  · intro pre mid post ht1 ht2 ht3 hb1 hb2 hp
    have hno : tickChar ∉ (pre ++ '\x7b' :: (mid ++ '\x7d' :: post)) := by
      intro hm
      rcases List.mem_append.1 hm with hm | hm
      · exact ht1 hm
      · rcases List.mem_cons.1 hm with he | hm
        · exact absurd he (by decide)
        · rcases List.mem_append.1 hm with hm | hm
          · exact ht2 hm
          · rcases List.mem_cons.1 hm with he | hm
            · exact absurd he (by decide)
            · exact ht3 hm
    have hf : extractFenced (pre ++ '\x7b' :: (mid ++ '\x7d' :: post)) = none :=
      extractFenced_none _ hno
    have hbs : bracketSpan (pre ++ '\x7b' :: (mid ++ '\x7d' :: post)) =
        some ('\x7b' :: (mid ++ ['\x7d'])) := by
      rw [bracketSpan_skip pre _ hb1 hb2]
      exact bracketSpan_obj mid post hp
    simp [extractJsonText, hf, bracketFallback, hbs]
  · intro pre mid post ht1 ht2 ht3 hb1 hb2 hp
    have hno : tickChar ∉ (pre ++ '[' :: (mid ++ ']' :: post)) := by
      intro hm
      rcases List.mem_append.1 hm with hm | hm
      · exact ht1 hm
      · rcases List.mem_cons.1 hm with he | hm
        · exact absurd he (by decide)
        · rcases List.mem_append.1 hm with hm | hm
          · exact ht2 hm
          · rcases List.mem_cons.1 hm with he | hm
            · exact absurd he (by decide)
            · exact ht3 hm
    have hf : extractFenced (pre ++ '[' :: (mid ++ ']' :: post)) = none :=
      extractFenced_none _ hno
    have hbs : bracketSpan (pre ++ '[' :: (mid ++ ']' :: post)) =
        some ('[' :: (mid ++ [']'])) := by
      rw [bracketSpan_skip pre _ hb1 hb2]
      exact bracketSpan_arr mid post hp
    simp [extractJsonText, hf, bracketFallback, hbs]
  · intro s ht hb1 hb2
    have hf : extractFenced s = none := extractFenced_none _ ht
    have hbs : bracketSpan s = none := bracketSpan_none s hb1 hb2
    simp [extractJsonText, hf, bracketFallback, hbs]

/-- Witness instantiating all four C4 extraction statements on concrete
replies. -/
theorem extractJsonText_spec_witness :
    extractJsonText (str "Lesson: " ++ (ticks3 ++ (str "json" ++
        ([' '] ++ (str "[1]" ++ (['\n'] ++ (ticks3 ++ str " done"))))))) =
      .ok (str "[1]") ∧
    extractJsonText (str "Intro " ++ (ticks3 ++
        (('\n' :: []) ++ (str "[2]" ++ (['\n'] ++ (ticks3 ++ str " tail")))))) =
      .ok (str "[2]") ∧
    extractJsonText (str "answer: " ++ '\x7b' :: (str "\"a\": 1" ++
        '\x7d' :: str " end")) =
      .ok ('\x7b' :: (str "\"a\": 1" ++ ['\x7d'])) ∧
    extractJsonText (str "list: " ++ '[' :: (str "1, 2" ++ ']' :: str ".")) =
      .ok ('[' :: (str "1, 2" ++ [']'])) ∧
    extractJsonText (str "no json here") = .error .unparsableResponse :=
  ⟨extractJsonText_spec.1 (str "Lesson: ") [' '] (str "[1]") ['\n']
      (str " done") (by decide) (by decide) (by decide) (by decide) (by decide)
      (by
        intro c hc
        rw [show (str "[1]").head? = some '[' from rfl] at hc
        cases hc
        decide)
      (by
        intro c hc
        rw [show (str "[1]").getLast? = some ']' from rfl] at hc
        cases hc
        decide),
   extractJsonText_spec.2.1 (str "Intro ") '\n' [] (str "[2]") ['\n']
      (str " tail") (by decide) (by decide) (by decide) (by decide) (by decide)
      (by decide)
      (by
        intro c hc
        rw [show (str "[2]").head? = some '[' from rfl] at hc
        cases hc
        decide)
      (by
        intro c hc
        rw [show (str "[2]").getLast? = some ']' from rfl] at hc
        cases hc
        decide),
   extractJsonText_spec.2.2.1 (str "answer: ") (str "\"a\": 1") (str " end")
     (by decide) (by decide) (by decide) (by decide) (by decide) (by decide),
   extractJsonText_spec.2.2.2.1 (str "list: ") (str "1, 2") (str ".")
     (by decide) (by decide) (by decide) (by decide) (by decide) (by decide),
   extractJsonText_spec.2.2.2.2 (str "no json here")
     (by decide) (by decide) (by decide)⟩

end RGR
